import Mathlib

/-!
Verification of the agent manager cache (`pkg/agent/manager/cache/cache.go`):
the in-memory entry store, trust bundle, and subscriber notification engine.

The embedding is sequential: each exported operation is a function from the
cache state to a new cache state.  Locks (`c.m`, `c.notifyMutex`, `sub.m`) and
the logger are dropped; a subscriber's capacity-1 Go channel is modelled as a
list of pending `WorkloadUpdate`s together with the capacity constant
`chanCap = 1` (a send appends, a receive would pop from the front).

The subscriber registry (`subscriber.go`) and the selector set package
(`pkg/common/selector`) are referenced by `cache.go` but their sources are not
part of this tree; the definitions below that stand in for them are modelled
from the specification and carry a doc comment saying so.
-/

/-- A selector: one discrete workload attribute (`common.Selector`, a
type/value pair of strings). -/
structure Selector where
  typ : String
  value : String
deriving DecidableEq, Repr

/-- The fields of `common.RegistrationEntry` that the cache reads: the stable
unique identifier and the selector set. -/
structure RegistrationEntry where
  EntryId : String
  Selectors : List Selector
deriving DecidableEq, Repr

/-- An X.509 certificate, opaque to the cache. -/
structure Cert where
  raw : Nat
deriving DecidableEq, Repr

/-- A private key, opaque to the cache. -/
structure PrivKey where
  raw : Nat
deriving DecidableEq, Repr

/-- Entry holds the data of a single cache entry (struct `Entry` in
`cache.go`): registration entry, SVID certificate, private key, and the
federated-bundle map (modelled as an association list of raw bytes). -/
structure Entry where
  RegistrationEntry : RegistrationEntry
  SVID : Cert
  PrivateKey : PrivKey
  Bundles : List (String × List Nat)
deriving DecidableEq, Repr

/-- The update pushed to subscribers (struct `WorkloadUpdate`): the entries
visible to the subscriber and the current trust bundle. -/
structure WorkloadUpdate where
  Entries : List Entry
  Bundle : List Cert
deriving DecidableEq, Repr

/-- Modelled from the spec: a selector set is the unordered collection of
selectors, duplicates collapsed (`selector.NewSetFromRaw`). -/
def selectorSet (l : List Selector) : Finset Selector :=
  l.toFinset

/-- Modelled from the spec: the covering predicate of the selector package
(`Set.IncludesSet`): set `a` includes set `b` iff every selector of `b` is
present in `a`.  Total, pure, and insensitive to order and duplicates by
construction. -/
def IncludesSet (a b : Finset Selector) : Bool :=
  decide (b ⊆ a)

/-- Capacity of a subscriber's delivery channel
(`make(chan *WorkloadUpdate, 1)`). -/
def chanCap : Nat := 1

/-- Modelled from the spec: a subscriber (struct `subscriber`, not in this
tree): an identity, a selector set, the mutable `active` flag, and the
single-slot delivery channel, modelled as the list of pending updates. -/
structure subscriber where
  sid : Nat
  sel : List Selector
  active : Bool
  c : List WorkloadUpdate
deriving DecidableEq, Repr

/-- Modelled from the spec: the subscriber registry is a mapping from
subscriber identity to subscriber; modelled as a list keyed by `sid`. -/
abbrev Registry : Type := List subscriber

/-- The subscriber identities present in a registry. -/
def sidsOf (regs : Registry) : List Nat :=
  regs.map subscriber.sid

/-- Modelled from the spec: `subscribers.add` registers a new subscriber. -/
def subsAdd (regs : Registry) (sub : subscriber) : Registry :=
  regs ++ [sub]

/-- Modelled from the spec: `subscribers.remove` deregisters a subscriber
(idempotent), identified by its identity. -/
def subsRemove (regs : Registry) (sid : Nat) : Registry :=
  List.filter (fun x => !(x.sid == sid)) regs

/-- Modelled from the spec: `subscribers.getAll` returns every registered
subscriber; the notification pass identifies its targets by identity. -/
def getAll (regs : Registry) : List Nat :=
  sidsOf regs

/-- Modelled from the spec: `subscribers.get(selectors)` returns every
registered subscriber interested in an entry carrying the given selector
set, i.e. whose own selector set covers it. -/
def subsGet (regs : Registry) (sels : List Selector) : List Nat :=
  sidsOf (List.filter (fun s => IncludesSet (selectorSet s.sel) (selectorSet sels)) regs)

/-- Modelled from the spec: the consumer signals disinterest by flipping the
subscriber's `active` flag; the registry itself is not touched. -/
def deactivate (regs : Registry) (sid : Nat) : Registry :=
  regs.map (fun s => if s.sid = sid then { s with active := false } else s)

/-- The cache state (struct `cacheImpl`): the entry map keyed by
`RegistrationEntry.EntryId`, the trust bundle, and the subscriber registry.
The Go map is modelled as an association list with unique keys. -/
structure cacheImpl where
  cache : List (String × Entry)
  bundle : List Cert
  subscribers : Registry
deriving DecidableEq, Repr

/-- Go map read `c.cache[k]`. -/
def mapLookup (m : List (String × Entry)) (k : String) : Option Entry :=
  (m.find? (fun p => p.1 == k)).map Prod.snd

/-- Go map write `c.cache[k] = v`: overwrite in place when the key is
present, append otherwise. -/
def mapInsert (m : List (String × Entry)) (k : String) (v : Entry) :
    List (String × Entry) :=
  if m.any (fun p => p.1 == k) then
    m.map (fun p => if p.1 == k then (k, v) else p)
  else
    m ++ [(k, v)]

/-- Go map delete `delete(c.cache, k)`. -/
def mapDelete (m : List (String × Entry)) (k : String) : List (String × Entry) :=
  List.filter (fun p => !(p.1 == k)) m

/-- `New` creates a new Cache with an empty entry map (the logger argument is
dropped). -/
def New (bundle : List Cert) : cacheImpl :=
  { cache := [], bundle := bundle, subscribers := [] }

/-- `Entries()`: a snapshot of all the in-force cached entries. -/
def Entries (c : cacheImpl) : List Entry :=
  c.cache.map Prod.snd

/-- `Bundle()`: the value of the current trust bundle.  (The defensive-copy
aliasing behaviour of the Go slice append is modelled separately by
`BundleGo` below.) -/
def Bundle (c : cacheImpl) : List Cert :=
  c.bundle

/-- `IsEmpty()`: true if this cache doesn't have any entry.  (Named
`IsEmptyCache` because `IsEmpty` is taken by the ambient library.) -/
def IsEmptyCache (c : cacheImpl) : Bool :=
  c.cache.length == 0

/-- `Entry(regEntry)`: the cache entry stored under the registration entry's
identifier, or absent. -/
def EntryOf (c : cacheImpl) (regEntry : RegistrationEntry) : Option Entry :=
  mapLookup c.cache regEntry.EntryId

/-- `subscriberEntries`: the entries visible to a subscriber — those whose
registration-entry selector set is included in the subscriber's selector
set. -/
def subscriberEntries (sub : subscriber) (entries : List Entry) : List Entry :=
  List.filter
    (fun e => IncludesSet (selectorSet sub.sel) (selectorSet e.RegistrationEntry.Selectors))
    entries

/-- The `WorkloadUpdate` value sent to a subscriber during a notification
pass: the filtered entries and the snapshot bundle. -/
def mkUpdate (sub : subscriber) (entries : List Entry) (bundle : List Cert) :
    WorkloadUpdate :=
  { Entries := subscriberEntries sub entries, Bundle := bundle }

/-- The channel into which the pass sends: if the channel currently holds an
undelivered update (`len(sub.c) > 0`) it is closed and replaced by a fresh
empty one, discarding the stale value. -/
def clearedChan (sub : subscriber) : List WorkloadUpdate :=
  if sub.c.length > 0 then [] else sub.c

/-- A channel send `ch <- u`. -/
def chanSend (ch : List WorkloadUpdate) (u : WorkloadUpdate) : List WorkloadUpdate :=
  ch ++ [u]

/-- The delivery step of the notification pass for one active subscriber:
replace a non-empty channel, then send the fresh snapshot. -/
def deliverTo (entries : List Entry) (bundle : List Cert) (sub : subscriber) :
    subscriber :=
  { sub with c := chanSend (clearedChan sub) (mkUpdate sub entries bundle) }

/-- One iteration of the loop in `notifySubscribers` for the target with the
given identity: an inactive subscriber is removed from the registry and
skipped; an active one gets the fresh snapshot delivered. -/
def notifyOne (entries : List Entry) (bundle : List Cert) (regs : Registry)
    (sid : Nat) : Registry :=
  match regs.find? (fun s => s.sid == sid) with
  | none => regs
  | some sub =>
    if sub.active then
      regs.map (fun s => if s.sid = sid then deliverTo entries bundle s else s)
    else
      subsRemove regs sid

/-- The delivery loop of `notifySubscribers` over the list of targets. -/
def notifyLoop (entries : List Entry) (bundle : List Cert) :
    Registry → List Nat → Registry
  | regs, [] => regs
  | regs, sid :: rest => notifyLoop entries bundle (notifyOne entries bundle regs sid) rest

/-- `notifySubscribers(subs)`: take one snapshot of the entries and the
bundle, then deliver it to each target subscriber in turn.  Targets are
identified by subscriber identity. -/
def notifySubscribers (c : cacheImpl) (targets : List Nat) : cacheImpl :=
  { c with subscribers := notifyLoop (Entries c) (Bundle c) c.subscribers targets }

/-- `SetBundle(bundle)`: replace the trust bundle, then notify all
subscribers. -/
def SetBundle (c : cacheImpl) (bundle : List Cert) : cacheImpl :=
  let c1 := { c with bundle := bundle }
  notifySubscribers c1 (getAll c1.subscribers)

/-- `SetEntry(entry)`: store the entry under its registration entry's
identifier, then notify the subscribers matching its selector set. -/
def SetEntry (c : cacheImpl) (entry : Entry) : cacheImpl :=
  let c1 := { c with cache := mapInsert c.cache entry.RegistrationEntry.EntryId entry }
  notifySubscribers c1 (subsGet c1.subscribers entry.RegistrationEntry.Selectors)

/-- `DeleteEntry(regEntry)`: if an entry is stored under the identifier,
compute the interested subscribers, remove the entry, notify them, and
report `true`; otherwise leave everything unchanged and report `false`. -/
def DeleteEntry (c : cacheImpl) (regEntry : RegistrationEntry) : cacheImpl × Bool :=
  match mapLookup c.cache regEntry.EntryId with
  | some entry =>
    let subs := subsGet c.subscribers entry.RegistrationEntry.Selectors
    let c1 := { c with cache := mapDelete c.cache regEntry.EntryId }
    (notifySubscribers c1 subs, true)
  | none => (c, false)

/-- `Subscribe(sub)`: register the subscriber, then run a notification pass
scoped to just that subscriber. -/
def Subscribe (c : cacheImpl) (sub : subscriber) : cacheImpl :=
  let c1 := { c with subscribers := subsAdd c.subscribers sub }
  notifySubscribers c1 [sub.sid]

/-- Representation invariant of the Go map: an entry is stored under its own
registration-entry identifier. -/
def WFCache (c : cacheImpl) : Prop :=
  ∀ p ∈ c.cache, p.2.RegistrationEntry.EntryId = p.1

/-! ## Helper lemmas about the notification engine -/

/-- The channel the delivery sends into is always empty. -/
lemma clearedChan_eq_nil (sub : subscriber) : clearedChan sub = [] := by
  unfold clearedChan
  split
  · rfl
  · next h => exact List.length_eq_zero.mp (Nat.eq_zero_of_not_pos h)

/-- Delivery replaces the channel content with exactly the fresh update. -/
lemma deliverTo_eq (entries : List Entry) (bundle : List Cert) (sub : subscriber) :
    deliverTo entries bundle sub = { sub with c := [mkUpdate sub entries bundle] } := by
  unfold deliverTo chanSend
  rw [clearedChan_eq_nil]
  rfl

lemma deliverTo_sid (entries : List Entry) (bundle : List Cert) (sub : subscriber) :
    (deliverTo entries bundle sub).sid = sub.sid := by
  rw [deliverTo_eq]


lemma deliverTo_idem (entries : List Entry) (bundle : List Cert) (sub : subscriber) :
    deliverTo entries bundle (deliverTo entries bundle sub)
      = deliverTo entries bundle sub := by
  simp [deliverTo_eq, mkUpdate, subscriberEntries]

/-- Dispatch lemma: no registered subscriber has the target identity. -/
lemma notifyOne_of_find_none (entries : List Entry) (bundle : List Cert)
    (regs : Registry) (t : Nat)
    (hf : regs.find? (fun s => s.sid == t) = none) :
    notifyOne entries bundle regs t = regs := by
  unfold notifyOne
  rw [hf]

/-- Dispatch lemma: the found target is active, so the pass delivers. -/
lemma notifyOne_of_find_active (entries : List Entry) (bundle : List Cert)
    (regs : Registry) (t : Nat) (sub : subscriber)
    (hf : regs.find? (fun s => s.sid == t) = some sub) (ha : sub.active = true) :
    notifyOne entries bundle regs t
      = regs.map (fun s => if s.sid = t then deliverTo entries bundle s else s) := by
  unfold notifyOne
  rw [hf]
  simp [ha]

/-- Dispatch lemma: the found target is inactive, so the pass removes it. -/
lemma notifyOne_of_find_inactive (entries : List Entry) (bundle : List Cert)
    (regs : Registry) (t : Nat) (sub : subscriber)
    (hf : regs.find? (fun s => s.sid == t) = some sub) (ha : sub.active = false) :
    notifyOne entries bundle regs t = subsRemove regs t := by
  unfold notifyOne
  rw [hf]
  simp [ha]

/-- Every subscriber in the registry after one loop iteration is either an
untouched original or the freshly-delivered version of an original. -/
lemma shape_one (entries : List Entry) (bundle : List Cert) (regs : Registry)
    (t : Nat) (s' : subscriber) (h : s' ∈ notifyOne entries bundle regs t) :
    s' ∈ regs ∨ ∃ s0 ∈ regs, s' = deliverTo entries bundle s0 := by
  rcases hf : regs.find? (fun s => s.sid == t) with _ | sub
  · rw [notifyOne_of_find_none entries bundle regs t hf] at h
    exact Or.inl h
  · by_cases ha : sub.active = true
    · rw [notifyOne_of_find_active entries bundle regs t sub hf ha] at h
      rcases List.mem_map.mp h with ⟨s0, hs0, heq⟩
      by_cases hsid : s0.sid = t
      · rw [if_pos hsid] at heq
        exact Or.inr ⟨s0, hs0, heq.symm⟩
      · rw [if_neg hsid] at heq
        exact Or.inl (heq ▸ hs0)
    · rw [notifyOne_of_find_inactive entries bundle regs t sub hf
        (Bool.eq_false_iff.mpr ha)] at h
      exact Or.inl (List.mem_of_mem_filter h)

/-- Every subscriber present after a full delivery loop is an untouched
original or the freshly-delivered version of an original. -/
lemma shape_loop (entries : List Entry) (bundle : List Cert) :
    ∀ (ts : List Nat) (regs : Registry) (s' : subscriber),
    s' ∈ notifyLoop entries bundle regs ts →
    s' ∈ regs ∨ ∃ s0 ∈ regs, s' = deliverTo entries bundle s0 := by
  intro ts
  induction ts with
  | nil => intro regs s' h; exact Or.inl h
  | cons t rest ih =>
    intro regs s' h
    rcases ih (notifyOne entries bundle regs t) s' h with h1 | ⟨s0, hs0, heq⟩
    · exact shape_one entries bundle regs t s' h1
    · rcases shape_one entries bundle regs t s0 hs0 with h2 | ⟨s1, hs1, heq1⟩
      · exact Or.inr ⟨s0, h2, heq⟩
      · refine Or.inr ⟨s1, hs1, ?_⟩
        rw [heq, heq1, deliverTo_idem]

/-- A subscriber whose identity is not the target is untouched by one loop
iteration. -/
lemma untouched_one (entries : List Entry) (bundle : List Cert) (regs : Registry)
    (t : Nat) (s : subscriber) (hs : s ∈ regs) (hne : s.sid ≠ t) :
    s ∈ notifyOne entries bundle regs t := by
  rcases hf : regs.find? (fun s => s.sid == t) with _ | sub
  · rw [notifyOne_of_find_none entries bundle regs t hf]
    exact hs
  · by_cases ha : sub.active = true
    · rw [notifyOne_of_find_active entries bundle regs t sub hf ha]
      refine List.mem_map.mpr ⟨s, hs, ?_⟩
      rw [if_neg hne]
    · rw [notifyOne_of_find_inactive entries bundle regs t sub hf
        (Bool.eq_false_iff.mpr ha)]
      unfold subsRemove
      refine List.mem_filter.mpr ⟨hs, ?_⟩
      simp [hne]

/-- A subscriber whose identity appears in none of the targets is untouched
by the whole delivery loop. -/
lemma untouched_loop (entries : List Entry) (bundle : List Cert) :
    ∀ (ts : List Nat) (regs : Registry) (s : subscriber),
    s ∈ regs → s.sid ∉ ts → s ∈ notifyLoop entries bundle regs ts := by
  intro ts
  induction ts with
  | nil => intro regs s hs _; exact hs
  | cons t rest ih =>
    intro regs s hs hnin
    have hne : s.sid ≠ t := fun h => hnin (h ▸ List.mem_cons_self t rest)
    have hnin' : s.sid ∉ rest := fun h => hnin (List.mem_cons_of_mem t h)
    exact ih (notifyOne entries bundle regs t) s
      (untouched_one entries bundle regs t s hs hne) hnin'

/-- One loop iteration never duplicates a subscriber identity. -/
lemma nodup_sids_one (entries : List Entry) (bundle : List Cert) (regs : Registry)
    (t : Nat) (h : (sidsOf regs).Nodup) :
    (sidsOf (notifyOne entries bundle regs t)).Nodup := by
  rcases hf : regs.find? (fun s => s.sid == t) with _ | sub
  · rw [notifyOne_of_find_none entries bundle regs t hf]
    exact h
  · by_cases ha : sub.active = true
    · rw [notifyOne_of_find_active entries bundle regs t sub hf ha]
      have heq : sidsOf (regs.map fun s => if s.sid = t then deliverTo entries bundle s else s)
          = sidsOf regs := by
        unfold sidsOf
        rw [List.map_map]
        refine List.map_congr_left ?_
        intro x _
        by_cases hx : x.sid = t
        · simp [hx, deliverTo_sid]
        · simp [hx]
      rw [heq]
      exact h
    · rw [notifyOne_of_find_inactive entries bundle regs t sub hf
        (Bool.eq_false_iff.mpr ha)]
      unfold subsRemove sidsOf
      exact (List.Sublist.map subscriber.sid (List.filter_sublist regs)).nodup h

/-- With no duplicate identities, looking a member up by its identity finds
exactly that member. -/
lemma find_sid_eq (regs : Registry) (s : subscriber)
    (hn : (sidsOf regs).Nodup) (hs : s ∈ regs) :
    regs.find? (fun x => x.sid == s.sid) = some s := by
  rcases hf : regs.find? (fun x => x.sid == s.sid) with _ | x
  · exfalso
    exact (List.find?_eq_none.mp hf s hs) (by simp)
  · have hx : x ∈ regs := List.mem_of_find?_eq_some hf
    have hp : x.sid = s.sid := by
      have := List.find?_some hf
      simpa using this
    have hxs : x = s := List.inj_on_of_nodup_map hn hx hs hp
    rw [hxs] at hf
    exact hf

/-- Everything left by `subsRemove` has a different identity. -/
lemma subsRemove_sid (regs : Registry) (t : Nat) (x : subscriber)
    (hx : x ∈ subsRemove regs t) : x.sid ≠ t := by
  unfold subsRemove at hx
  have := (List.mem_filter.mp hx).2
  simpa using this

/-- An active targeted subscriber ends the delivery loop holding exactly the
fresh snapshot: its delivered version is in the final registry. -/
lemma delivered_in (entries : List Entry) (bundle : List Cert) :
    ∀ (ts : List Nat) (regs : Registry) (s : subscriber),
    (sidsOf regs).Nodup → ts.Nodup → s ∈ regs → s.active = true → s.sid ∈ ts →
    deliverTo entries bundle s ∈ notifyLoop entries bundle regs ts := by
  intro ts
  induction ts with
  | nil => intro regs s _ _ _ _ hmem; exact absurd hmem (List.not_mem_nil s.sid)
  | cons t rest ih =>
    intro regs s hn hts hs ha hmem
    by_cases hsid : s.sid = t
    · subst hsid
      have hone : notifyOne entries bundle regs s.sid
          = regs.map (fun x => if x.sid = s.sid then deliverTo entries bundle x else x) :=
        notifyOne_of_find_active entries bundle regs s.sid s
          (find_sid_eq regs s hn hs) ha
      have hdel : deliverTo entries bundle s ∈ notifyOne entries bundle regs s.sid := by
        rw [hone]
        exact List.mem_map.mpr ⟨s, hs, by rw [if_pos rfl]⟩
      have hnotin : (deliverTo entries bundle s).sid ∉ rest := by
        rw [deliverTo_sid]
        exact (List.nodup_cons.mp hts).1
      exact untouched_loop entries bundle rest
        (notifyOne entries bundle regs s.sid) (deliverTo entries bundle s) hdel hnotin
    · have hmem' : s.sid ∈ rest := by
        rcases List.mem_cons.mp hmem with h | h
        · exact absurd h hsid
        · exact h
      exact ih (notifyOne entries bundle regs t) s
        (nodup_sids_one entries bundle regs t hn) (List.nodup_cons.mp hts).2
        (untouched_one entries bundle regs t s hs hsid) ha hmem'

/-- An inactive targeted subscriber is absent from the registry after the
delivery loop: the pass reclaims it. -/
lemma removed_gone (entries : List Entry) (bundle : List Cert) :
    ∀ (ts : List Nat) (regs : Registry) (s : subscriber),
    (sidsOf regs).Nodup → ts.Nodup → s ∈ regs → s.active = false → s.sid ∈ ts →
    ∀ s' ∈ notifyLoop entries bundle regs ts, s'.sid ≠ s.sid := by
  intro ts
  induction ts with
  | nil => intro regs s _ _ _ _ hmem; exact absurd hmem (List.not_mem_nil s.sid)
  | cons t rest ih =>
    intro regs s hn hts hs ha hmem s' hs'
    by_cases hsid : s.sid = t
    · subst hsid
      have hone : notifyOne entries bundle regs s.sid = subsRemove regs s.sid :=
        notifyOne_of_find_inactive entries bundle regs s.sid s
          (find_sid_eq regs s hn hs) ha
      simp only [notifyLoop] at hs'
      rw [hone] at hs'
      rcases shape_loop entries bundle rest (subsRemove regs s.sid) s' hs' with
        h | ⟨s0, hs0, heq⟩
      · exact subsRemove_sid regs s.sid s' h
      · rw [heq, deliverTo_sid]
        exact subsRemove_sid regs s.sid s0 hs0
    · have hmem' : s.sid ∈ rest := by
        rcases List.mem_cons.mp hmem with h | h
        · exact absurd h hsid
        · exact h
      exact ih (notifyOne entries bundle regs t) s
        (nodup_sids_one entries bundle regs t hn) (List.nodup_cons.mp hts).2
        (untouched_one entries bundle regs t s hs hsid) ha hmem' s' hs'

/-- The notification pass leaves the entry store untouched. -/
lemma notifySubscribers_cache (c : cacheImpl) (ts : List Nat) :
    (notifySubscribers c ts).cache = c.cache := rfl

/-- The notification pass leaves the trust bundle untouched. -/
lemma notifySubscribers_bundle (c : cacheImpl) (ts : List Nat) :
    (notifySubscribers c ts).bundle = c.bundle := rfl

/-! ## Helper lemmas about the entry map -/

/-- The identifiers present in the entry map. -/
def keys (m : List (String × Entry)) : List String :=
  m.map Prod.fst

/-- After a delete, a lookup of the deleted identifier is absent. -/
lemma lookup_mapDelete_self (m : List (String × Entry)) (k : String) :
    mapLookup (mapDelete m k) k = none := by
  unfold mapLookup mapDelete
  have : List.find? (fun p => p.1 == k) (List.filter (fun p => !(p.1 == k)) m) = none := by
    rw [List.find?_eq_none]
    intro p hp
    have := (List.mem_filter.mp hp).2
    simpa using this
  rw [this]
  rfl

/-- A pair surviving a delete was present before and has a different key. -/
lemma mem_mapDelete (m : List (String × Entry)) (k : String) (p : String × Entry)
    (hp : p ∈ mapDelete m k) : p ∈ m ∧ p.1 ≠ k := by
  unfold mapDelete at hp
  have h := List.mem_filter.mp hp
  exact ⟨h.1, by simpa using h.2⟩

/-- Overwriting does not change a pair's key. -/
lemma fst_overwrite (k : String) (v : Entry) (p : String × Entry) :
    (if p.1 == k then (k, v) else p).1 = p.1 := by
  by_cases h : p.1 = k
  · simp [h]
  · simp [h]

/-- An insert preserves uniqueness of the identifiers. -/
lemma keys_nodup_mapInsert (m : List (String × Entry)) (k : String) (v : Entry)
    (h : (keys m).Nodup) : (keys (mapInsert m k v)).Nodup := by
  unfold mapInsert
  split
  · have heq : keys (m.map fun p => if p.1 == k then (k, v) else p) = keys m := by
      unfold keys
      rw [List.map_map]
      exact List.map_congr_left (fun p _ => fst_overwrite k v p)
    rw [heq]
    exact h
  · next hany =>
    have hnot : k ∉ keys m := by
      intro hk
      rcases List.mem_map.mp hk with ⟨p, hp, hpk⟩
      exact hany (List.any_eq_true.mpr ⟨p, hp, by simp [hpk]⟩)
    unfold keys
    rw [List.map_append]
    simp only [List.map_cons, List.map_nil]
    rw [List.nodup_append]
    exact ⟨h, List.nodup_singleton k, by
      intro a ha hb
      rw [List.mem_singleton.mp hb] at ha
      exact hnot ha⟩

/-- In a map with unique keys, filtering by the key of a member yields just
that member. -/
lemma filter_key_singleton (k : String) :
    ∀ (m : List (String × Entry)) (p0 : String × Entry),
    (keys m).Nodup → p0 ∈ m → p0.1 = k →
    List.filter (fun p => p.1 == k) m = [p0] := by
  intro m
  induction m with
  | nil => intro p0 _ hp0 _; exact absurd hp0 (List.not_mem_nil p0)
  | cons p m' ih =>
    intro p0 hn hp0 hk
    have hn' : (keys m').Nodup ∧ p.1 ∉ keys m' := by
      have := hn
      unfold keys at this
      rw [List.map_cons, List.nodup_cons] at this
      exact ⟨this.2, this.1⟩
    rcases List.mem_cons.mp hp0 with h0 | h0
    · subst h0
      rw [List.filter_cons_of_pos (by simp [hk])]
      have hrest : List.filter (fun q => q.1 == k) m' = [] := by
        rw [List.filter_eq_nil_iff]
        intro q hq
        simp only [beq_iff_eq]
        intro hqk
        have hmem : q.1 ∈ keys m' := List.mem_map.mpr ⟨q, hq, rfl⟩
        rw [hqk, ← hk] at hmem
        exact hn'.2 hmem
      rw [hrest]
    · have hpk : p.1 ≠ k := by
        intro hpk
        have hmem : p0.1 ∈ keys m' := List.mem_map.mpr ⟨p0, h0, rfl⟩
        rw [hk, ← hpk] at hmem
        exact hn'.2 hmem
      rw [List.filter_cons_of_neg (by simp [hpk])]
      exact ih p0 hn'.1 h0 hk

/-- After inserting at a key into a unique-key map, exactly the new pair is
stored under that key. -/
lemma filter_key_mapInsert_self (m : List (String × Entry)) (k : String) (v : Entry)
    (h : (keys m).Nodup) :
    List.filter (fun p => p.1 == k) (mapInsert m k v) = [(k, v)] := by
  unfold mapInsert
  split
  · next hany =>
    rcases List.any_eq_true.mp hany with ⟨p0, hp0, hp0k⟩
    have hp0k' : p0.1 = k := by simpa using hp0k
    rw [List.filter_map]
    have hpred : List.filter ((fun p => p.1 == k) ∘ fun p => if p.1 == k then (k, v) else p) m
        = List.filter (fun p => p.1 == k) m := by
      refine List.filter_congr ?_
      intro p _
      simp only [Function.comp_apply, fst_overwrite]
    rw [hpred, filter_key_singleton k m p0 h hp0 hp0k']
    simp [hp0k']
  · next hany =>
    rw [List.filter_append]
    have hnil : List.filter (fun p => p.1 == k) m = [] := by
      rw [List.filter_eq_nil_iff]
      intro p hp
      simp only [beq_iff_eq]
      intro hpk
      exact hany (List.any_eq_true.mpr ⟨p, hp, by simp [hpk]⟩)
    rw [hnil]
    simp

/-- Inserting at one key leaves what is stored under every other key
unchanged. -/
lemma filter_key_mapInsert_other (m : List (String × Entry)) (k kother : String)
    (v : Entry) (hne : kother ≠ k) :
    List.filter (fun p => p.1 == kother) (mapInsert m k v)
      = List.filter (fun p => p.1 == kother) m := by
  unfold mapInsert
  split
  · rw [List.filter_map]
    have hpred : List.filter ((fun p => p.1 == kother) ∘ fun p => if p.1 == k then (k, v) else p) m
        = List.filter (fun p => p.1 == kother) m := by
      refine List.filter_congr ?_
      intro p _
      simp only [Function.comp_apply, fst_overwrite]
    rw [hpred]
    refine List.map_congr_left ?_ |>.trans (List.map_id _)
    intro p hp
    have hpk : p.1 = kother := by
      have := (List.mem_filter.mp hp).2
      simpa using this
    rw [if_neg (by simp [hpk, hne])]
    rfl
  · rw [List.filter_append]
    have : List.filter (fun p => p.1 == kother) [(k, v)] = [] := by
      simp [hne, Ne.symm hne]
    rw [this, List.append_nil]

/-! ## Slice-aliasing model for `Bundle()` -/

/-- The heap of allocated certificate arrays backing Go slices; a slice value
is the index of its backing array. -/
abbrev CertHeap : Type := List (List Cert)

/-- The certificates read through a slice. -/
def readArr (h : CertHeap) (i : Nat) : List Cert :=
  h.getD i []

/-- Allocation of a fresh backing array, returning the new heap and the new
slice. -/
def allocArr (h : CertHeap) (cs : List Cert) : CertHeap × Nat :=
  (h ++ [cs], h.length)

/-- An in-place element write through a slice, as Go `s[j] = v`. -/
def writeArr (h : CertHeap) (i j : Nat) (v : Cert) : CertHeap :=
  h.set i ((h.getD i []).set j v)

/-- The body of `Bundle()` at the slice level: with `result` starting nil,
`result = append(result, c.bundle...)` allocates a fresh backing array and
copies the stored bundle's certificates into it. -/
def BundleGo (h : CertHeap) (stored : Nat) : CertHeap × Nat :=
  allocArr h (readArr h stored)

lemma readArr_alloc (g : CertHeap) (cs : List Cert) :
    readArr (g ++ [cs]) g.length = cs := by
  unfold readArr
  rw [List.getD_eq_getElem?_getD, List.getElem?_append_right (Nat.le_refl g.length)]
  simp

lemma readArr_append_lt (g : CertHeap) (cs : List Cert) (i : Nat)
    (hi : i < g.length) : readArr (g ++ [cs]) i = readArr g i := by
  unfold readArr
  rw [List.getD_eq_getElem?_getD, List.getD_eq_getElem?_getD,
    List.getElem?_append_left hi]

lemma readArr_set_ne (g : CertHeap) (i j : Nat) (x : List Cert) (hne : i ≠ j) :
    readArr (g.set i x) j = readArr g j := by
  unfold readArr
  rw [List.getD_eq_getElem?_getD, List.getD_eq_getElem?_getD,
    List.getElem?_set_ne hne]

/-! ## Concrete data for witnesses -/

/-- A sample selector. -/
def selA : Selector := { typ := "type", value := "a" }

/-- Another sample selector. -/
def selB : Selector := { typ := "type", value := "b" }

/-- A sample entry with identifier `E1` and selector set `{a}`. -/
def entE1 : Entry :=
  { RegistrationEntry := { EntryId := "E1", Selectors := [selA] },
    SVID := { raw := 1 }, PrivateKey := { raw := 1 }, Bundles := [] }

/-- A second entry under the same identifier `E1`, with selector set `{b}`. -/
def entE1b : Entry :=
  { RegistrationEntry := { EntryId := "E1", Selectors := [selB] },
    SVID := { raw := 2 }, PrivateKey := { raw := 2 }, Bundles := [] }

/-- An active sample subscriber with selector set `{a, b}` and an empty
channel. -/
def sub1 : subscriber := { sid := 1, sel := [selA, selB], active := true, c := [] }

/-- An inactive sample subscriber. -/
def subInactive : subscriber := { sid := 2, sel := [selA], active := false, c := [] }

/-- A sample certificate. -/
def cert1 : Cert := { raw := 1 }

/-- A sample cache state holding the entry `E1` and one active subscriber. -/
def cWit : cacheImpl :=
  { cache := [("E1", entE1)], bundle := [cert1], subscribers := [sub1] }

/-! ## Claims -/

/-- C1 (visibility correctness): during a notification pass, the snapshot
delivered to a targeted subscriber contains an entry iff the entry is in the
cache snapshot and the subscriber's selector set covers the entry's selector
set, both taken as unordered sets (duplicates collapsed, order
irrelevant). -/
theorem cache_C1_visibility (entries : List Entry) (bundle : List Cert)
    (sub : subscriber) :
    (deliverTo entries bundle sub).c = [mkUpdate sub entries bundle]
    ∧ ∀ e : Entry,
        e ∈ (mkUpdate sub entries bundle).Entries ↔
          e ∈ entries ∧
            selectorSet e.RegistrationEntry.Selectors ⊆ selectorSet sub.sel := by
  constructor
  · rw [deliverTo_eq]
  · intro e
    unfold mkUpdate subscriberEntries
    simp [List.mem_filter, IncludesSet]

/-- Witness for C1 at a concrete subscriber, entry list and bundle. -/
theorem cache_C1_visibility_witness :
    entE1 ∈ (mkUpdate sub1 [entE1] [cert1]).Entries ↔
      entE1 ∈ [entE1] ∧
        selectorSet entE1.RegistrationEntry.Selectors ⊆ selectorSet sub1.sel :=
  (cache_C1_visibility [entE1] [cert1] sub1).2 entE1

/-- C2 (single-slot supersede, non-blocking delivery): the channel the pass
sends into is empty and below capacity, any undelivered update is discarded,
the delivered channel holds exactly the fresh snapshot, and a full pass keeps
every subscriber's channel within the one-slot bound. -/
theorem cache_C2_single_slot :
    (∀ (entries : List Entry) (bundle : List Cert) (sub : subscriber),
      (clearedChan sub).length < chanCap
      ∧ (∀ u ∈ sub.c, u ∉ clearedChan sub)
      ∧ (deliverTo entries bundle sub).c = [mkUpdate sub entries bundle])
    ∧ ∀ (c : cacheImpl) (ts : List Nat),
        (∀ s ∈ c.subscribers, s.c.length ≤ chanCap) →
        ∀ s' ∈ (notifySubscribers c ts).subscribers, s'.c.length ≤ chanCap := by
  constructor
  · intro entries bundle sub
    refine ⟨?_, ?_, ?_⟩
    · rw [clearedChan_eq_nil]
      simp [chanCap]
    · intro u _
      rw [clearedChan_eq_nil]
      exact List.not_mem_nil u
    · rw [deliverTo_eq]
  · intro c ts hinv s' hs'
    rcases shape_loop (Entries c) (Bundle c) ts c.subscribers s' hs' with h | ⟨s0, _, heq⟩
    · exact hinv s' h
    · rw [heq, deliverTo_eq]
      simp [chanCap]

/-- Witness for C2: the pass over a concrete cache keeps the one-slot
invariant. -/
theorem cache_C2_single_slot_witness :
    (∀ s ∈ cWit.subscribers, s.c.length ≤ chanCap)
    ∧ ∀ s' ∈ (notifySubscribers cWit [1]).subscribers, s'.c.length ≤ chanCap :=
  ⟨by decide, cache_C2_single_slot.2 cWit [1] (by decide)⟩

/-- C3 (initial push): right after `Subscribe`, the new subscriber is
registered and its channel holds exactly one update: the current entries
filtered by its selector set, with the current bundle; the store and bundle
are untouched. -/
theorem cache_C3_initial_push (c : cacheImpl) (sub : subscriber)
    (ha : sub.active = true) (hc : sub.c = [])
    (hfresh : ∀ s ∈ c.subscribers, s.sid ≠ sub.sid) :
    (Subscribe c sub).subscribers
      = c.subscribers ++ [{ sub with c := [mkUpdate sub (Entries c) (Bundle c)] }]
    ∧ (Subscribe c sub).cache = c.cache
    ∧ (Subscribe c sub).bundle = c.bundle := by
  refine ⟨?_, rfl, rfl⟩
  have hf : (c.subscribers ++ [sub]).find? (fun s => s.sid == sub.sid) = some sub := by
    rw [List.find?_append]
    have hnone : c.subscribers.find? (fun s => s.sid == sub.sid) = none :=
      List.find?_eq_none.mpr (fun x hx => by simp [hfresh x hx])
    rw [hnone]
    simp
  have h1 : (Subscribe c sub).subscribers
      = notifyOne (Entries c) (Bundle c) (c.subscribers ++ [sub]) sub.sid := rfl
  rw [h1, notifyOne_of_find_active (Entries c) (Bundle c) (c.subscribers ++ [sub])
    sub.sid sub hf ha, List.map_append]
  congr 1
  · have : c.subscribers.map
        (fun s => if s.sid = sub.sid then deliverTo (Entries c) (Bundle c) s else s)
        = c.subscribers.map id :=
      List.map_congr_left (fun s hs => if_neg (hfresh s hs))
    rw [this, List.map_id]
  · simp [deliverTo_eq]

/-- Witness for C3 at a concrete cache and subscriber. -/
theorem cache_C3_initial_push_witness :
    (sub1.active = true ∧ sub1.c = []
      ∧ ∀ s ∈ (New [cert1]).subscribers, s.sid ≠ sub1.sid)
    ∧ (Subscribe (New [cert1]) sub1).subscribers
        = (New [cert1]).subscribers
          ++ [{ sub1 with
                c := [mkUpdate sub1 (Entries (New [cert1])) (Bundle (New [cert1]))] }] :=
  ⟨⟨rfl, rfl, by decide⟩,
    (cache_C3_initial_push (New [cert1]) sub1 rfl rfl (by decide)).1⟩

/-- C4 (deletion consistency): once `DeleteEntry` reports true, the
identifier lookup is absent, no current entry carries that identifier, and
every snapshot freshly delivered by a subsequent notification pass excludes
it. -/
theorem cache_C4_deletion_consistency (c : cacheImpl)
    (regEntry : RegistrationEntry) (c' : cacheImpl) (hwf : WFCache c)
    (hdel : DeleteEntry c regEntry = (c', true)) :
    EntryOf c' regEntry = none
    ∧ (∀ e ∈ Entries c', e.RegistrationEntry.EntryId ≠ regEntry.EntryId)
    ∧ ∀ (ts : List Nat) (s' : subscriber),
        s' ∈ (notifySubscribers c' ts).subscribers →
        s' ∈ c'.subscribers ∨
          ∃ s0 ∈ c'.subscribers,
            s' = deliverTo (Entries c') (Bundle c') s0
            ∧ ∀ e ∈ (mkUpdate s0 (Entries c') (Bundle c')).Entries,
                e.RegistrationEntry.EntryId ≠ regEntry.EntryId := by
  have hcache : c'.cache = mapDelete c.cache regEntry.EntryId := by
    unfold DeleteEntry at hdel
    rcases hl : mapLookup c.cache regEntry.EntryId with _ | entry
    · rw [hl] at hdel
      have hfalse := congrArg Prod.snd hdel
      simp at hfalse
    · rw [hl] at hdel
      have hc' := congrArg Prod.fst hdel
      simp only at hc'
      rw [← hc']
      rfl
  have hgone : ∀ e ∈ Entries c', e.RegistrationEntry.EntryId ≠ regEntry.EntryId := by
    intro e he
    rcases List.mem_map.mp he with ⟨p, hp, hpe⟩
    rw [hcache] at hp
    have hmem := mem_mapDelete c.cache regEntry.EntryId p hp
    have hwfp := hwf p hmem.1
    rw [← hpe, hwfp]
    exact hmem.2
  refine ⟨?_, hgone, ?_⟩
  · unfold EntryOf
    rw [hcache]
    exact lookup_mapDelete_self c.cache regEntry.EntryId
  · intro ts s' hs'
    rcases shape_loop (Entries c') (Bundle c') ts c'.subscribers s' hs' with
      h | ⟨s0, hs0, heq⟩
    · exact Or.inl h
    · refine Or.inr ⟨s0, hs0, heq, ?_⟩
      intro e he
      have he' : e ∈ Entries c' := by
        have := List.mem_filter.mp he
        exact this.1
      exact hgone e he'

/-- The state reached by deleting `E1` from `cWit`: empty store, and the
subscriber holds the entry-free snapshot. -/
def cWitDeleted : cacheImpl :=
  { cache := [], bundle := [cert1],
    subscribers := [{ sub1 with c := [⟨[], [cert1]⟩] }] }

/-- Witness for C4 at a concrete cache holding the single entry `E1`. -/
theorem cache_C4_deletion_consistency_witness :
    (WFCache cWit
      ∧ DeleteEntry cWit entE1.RegistrationEntry = (cWitDeleted, true))
    ∧ EntryOf cWitDeleted entE1.RegistrationEntry = none :=
  ⟨⟨by unfold WFCache; decide, by decide⟩,
    (cache_C4_deletion_consistency cWit entE1.RegistrationEntry cWitDeleted
      (by unfold WFCache; decide) (by decide)).1⟩

/-- C5 (idempotent overwrite): two `SetEntry` calls sharing an identifier
leave exactly the second entry stored under it and do not change how many
entries other identifiers hold. -/
theorem cache_C5_idempotent_overwrite (c : cacheImpl) (e1 e2 : Entry)
    (hk : (keys c.cache).Nodup)
    (hid : e1.RegistrationEntry.EntryId = e2.RegistrationEntry.EntryId) :
    (List.filter (fun p => p.1 == e2.RegistrationEntry.EntryId)
        (SetEntry (SetEntry c e1) e2).cache).map Prod.snd = [e2]
    ∧ ∀ k : String, k ≠ e2.RegistrationEntry.EntryId →
        (List.filter (fun p => p.1 == k) (SetEntry (SetEntry c e1) e2).cache).length
          = (List.filter (fun p => p.1 == k) c.cache).length := by
  have hc2 : (SetEntry (SetEntry c e1) e2).cache
      = mapInsert (mapInsert c.cache e2.RegistrationEntry.EntryId e1)
          e2.RegistrationEntry.EntryId e2 := by
    have hraw : (SetEntry (SetEntry c e1) e2).cache
        = mapInsert (mapInsert c.cache e1.RegistrationEntry.EntryId e1)
            e2.RegistrationEntry.EntryId e2 := rfl
    rw [hraw, hid]
  have hk1 : (keys (mapInsert c.cache e2.RegistrationEntry.EntryId e1)).Nodup :=
    keys_nodup_mapInsert c.cache e2.RegistrationEntry.EntryId e1 hk
  constructor
  · rw [hc2, filter_key_mapInsert_self _ _ _ hk1]
    rfl
  · intro k hkne
    rw [hc2, filter_key_mapInsert_other _ _ _ _ hkne,
      filter_key_mapInsert_other _ _ _ _ hkne]

/-- Witness for C5: overwriting `E1` twice on an empty cache stores exactly
the second entry. -/
theorem cache_C5_idempotent_overwrite_witness :
    ((keys (New [cert1]).cache).Nodup
      ∧ entE1.RegistrationEntry.EntryId = entE1b.RegistrationEntry.EntryId)
    ∧ (List.filter (fun p => p.1 == entE1b.RegistrationEntry.EntryId)
        (SetEntry (SetEntry (New [cert1]) entE1) entE1b).cache).map Prod.snd
      = [entE1b] :=
  ⟨⟨by decide, by decide⟩,
    (cache_C5_idempotent_overwrite (New [cert1]) entE1 entE1b (by decide) (by decide)).1⟩

/-- C6 (delete of a missing identifier): when nothing is stored under the
identifier, `DeleteEntry` reports false and returns the state completely
unchanged — store, bundle, and every subscriber channel — performing no
notification pass. -/
theorem cache_C6_delete_missing (c : cacheImpl) (regEntry : RegistrationEntry)
    (h : EntryOf c regEntry = none) :
    DeleteEntry c regEntry = (c, false) := by
  unfold DeleteEntry
  unfold EntryOf at h
  rw [h]

/-- Witness for C6 on an empty cache. -/
theorem cache_C6_delete_missing_witness :
    EntryOf cWit { EntryId := "missing", Selectors := [] } = none
    ∧ DeleteEntry cWit { EntryId := "missing", Selectors := [] } = (cWit, false) :=
  ⟨by decide,
    cache_C6_delete_missing cWit { EntryId := "missing", Selectors := [] } (by decide)⟩

/-- C7 (bundle rotation notifies everyone): `SetBundle` replaces the bundle
wholesale, leaves the entry store untouched, and every active registered
subscriber ends up holding exactly one snapshot whose bundle is the new
one. -/
theorem cache_C7_bundle_rotation (c : cacheImpl) (b : List Cert)
    (hn : (sidsOf c.subscribers).Nodup) :
    (SetBundle c b).bundle = b
    ∧ (SetBundle c b).cache = c.cache
    ∧ ∀ s ∈ c.subscribers, s.active = true →
        { s with c := [mkUpdate s (Entries c) b] } ∈ (SetBundle c b).subscribers
        ∧ (mkUpdate s (Entries c) b).Bundle = b := by
  refine ⟨rfl, rfl, ?_⟩
  intro s hs ha
  refine ⟨?_, rfl⟩
  have h1 : (SetBundle c b).subscribers
      = notifyLoop (Entries c) b c.subscribers (sidsOf c.subscribers) := rfl
  rw [h1, ← deliverTo_eq]
  exact delivered_in (Entries c) b (sidsOf c.subscribers) c.subscribers s hn hn hs ha
    (List.mem_map_of_mem subscriber.sid hs)

/-- Witness for C7 at a concrete cache with one active subscriber. -/
theorem cache_C7_bundle_rotation_witness :
    ((sidsOf cWit.subscribers).Nodup ∧ sub1 ∈ cWit.subscribers ∧ sub1.active = true)
    ∧ (SetBundle cWit [cert1, cert1]).bundle = [cert1, cert1]
    ∧ { sub1 with c := [mkUpdate sub1 (Entries cWit) [cert1, cert1]] }
        ∈ (SetBundle cWit [cert1, cert1]).subscribers :=
  ⟨⟨by decide, by decide, rfl⟩,
    (cache_C7_bundle_rotation cWit [cert1, cert1] (by decide)).1,
    ((cache_C7_bundle_rotation cWit [cert1, cert1] (by decide)).2.2 sub1
      (by decide) rfl).1⟩

/-- C8 (lazy reclamation): a notification pass that targets an inactive
subscriber removes it from the registry, delivering nothing — the step is
pure removal; a full pass leaves no subscriber with that identity; and
deactivation itself never removes anyone nor touches any channel —
reclamation happens only at the pass. -/
theorem cache_C8_lazy_reclamation :
    (∀ (entries : List Entry) (bundle : List Cert) (regs : Registry)
        (s : subscriber),
      (sidsOf regs).Nodup → s ∈ regs → s.active = false →
      notifyOne entries bundle regs s.sid = subsRemove regs s.sid)
    ∧ (∀ (c : cacheImpl) (ts : List Nat) (s : subscriber),
        (sidsOf c.subscribers).Nodup → ts.Nodup → s ∈ c.subscribers →
        s.active = false → s.sid ∈ ts →
        ∀ s' ∈ (notifySubscribers c ts).subscribers, s'.sid ≠ s.sid)
    ∧ ∀ (regs : Registry) (sid : Nat),
        sidsOf (deactivate regs sid) = sidsOf regs
        ∧ (deactivate regs sid).map subscriber.c = regs.map subscriber.c := by
  refine ⟨?_, ?_, ?_⟩
  · intro entries bundle regs s hn hs ha
    exact notifyOne_of_find_inactive entries bundle regs s.sid s
      (find_sid_eq regs s hn hs) ha
  · intro c ts s hn hts hs ha hmem s' hs'
    exact removed_gone (Entries c) (Bundle c) ts c.subscribers s hn hts hs ha hmem s' hs'
  · intro regs sid
    constructor
    · unfold deactivate sidsOf
      rw [List.map_map]
      refine List.map_congr_left ?_
      intro x _
      by_cases hx : x.sid = sid <;> simp [hx]
    · unfold deactivate
      rw [List.map_map]
      refine List.map_congr_left ?_
      intro x _
      by_cases hx : x.sid = sid <;> simp [hx]

/-- A cache with one inactive subscriber, for the C8 witness. -/
def cWitInactive : cacheImpl :=
  { cache := [], bundle := [cert1], subscribers := [subInactive] }

/-- Witness for C8: a pass targeting the inactive subscriber leaves nobody
with its identity. -/
theorem cache_C8_lazy_reclamation_witness :
    ((sidsOf cWitInactive.subscribers).Nodup ∧ ([2] : List Nat).Nodup
      ∧ subInactive ∈ cWitInactive.subscribers ∧ subInactive.active = false
      ∧ subInactive.sid ∈ ([2] : List Nat))
    ∧ ∀ s' ∈ (notifySubscribers cWitInactive [2]).subscribers,
        s'.sid ≠ subInactive.sid :=
  ⟨⟨by decide, by decide, by decide, rfl, by decide⟩,
    cache_C8_lazy_reclamation.2.1 cWitInactive [2] subInactive
      (by decide) (by decide) (by decide) rfl (by decide)⟩

/-- C9 (defensive bundle copy): in the slice model, `Bundle()` allocates a
fresh backing array equal element-for-element to the stored bundle; writing
through the returned slice changes neither the stored bundle nor the result
of a later `Bundle()` call. -/
theorem cache_C9_defensive_copy (h : CertHeap) (stored : Nat)
    (hs : stored < h.length) :
    readArr (BundleGo h stored).1 (BundleGo h stored).2 = readArr h stored
    ∧ (BundleGo h stored).2 ≠ stored
    ∧ ∀ (j : Nat) (v : Cert),
        readArr (writeArr (BundleGo h stored).1 (BundleGo h stored).2 j v) stored
          = readArr h stored
        ∧ readArr
            (BundleGo (writeArr (BundleGo h stored).1 (BundleGo h stored).2 j v) stored).1
            (BundleGo (writeArr (BundleGo h stored).1 (BundleGo h stored).2 j v) stored).2
          = readArr h stored := by
  have hr : (BundleGo h stored).2 = h.length := rfl
  have h1 : (BundleGo h stored).1 = h ++ [readArr h stored] := rfl
  have hne : (BundleGo h stored).2 ≠ stored := by
    rw [hr]
    exact Nat.ne_of_gt hs
  refine ⟨?_, hne, ?_⟩
  · rw [h1, hr, readArr_alloc]
  · intro j v
    have hw : readArr (writeArr (BundleGo h stored).1 (BundleGo h stored).2 j v) stored
        = readArr h stored := by
      unfold writeArr
      rw [readArr_set_ne _ _ _ _ hne, h1, readArr_append_lt _ _ _ hs]
    refine ⟨hw, ?_⟩
    have halloc := readArr_alloc
      (writeArr (BundleGo h stored).1 (BundleGo h stored).2 j v)
      (readArr (writeArr (BundleGo h stored).1 (BundleGo h stored).2 j v) stored)
    exact halloc.trans hw

/-- Witness for C9 on a one-array heap. -/
theorem cache_C9_defensive_copy_witness :
    0 < ([[cert1]] : CertHeap).length
    ∧ readArr (BundleGo ([[cert1]] : CertHeap) 0).1 (BundleGo ([[cert1]] : CertHeap) 0).2
        = readArr ([[cert1]] : CertHeap) 0 :=
  ⟨by decide, (cache_C9_defensive_copy [[cert1]] 0 (by decide)).1⟩

/-- C10 (emptiness consistency): `IsEmpty` holds exactly when `Entries` is
empty, and a freshly created cache is empty. -/
theorem cache_C10_empty_iff :
    (∀ c : cacheImpl, IsEmptyCache c = true ↔ Entries c = [])
    ∧ ∀ b : List Cert, IsEmptyCache (New b) = true := by
  constructor
  · intro c
    unfold IsEmptyCache Entries
    constructor
    · intro h
      have hlen : c.cache.length = 0 := by simpa using h
      rw [List.length_eq_zero.mp hlen]
      rfl
    · intro h
      have : c.cache = [] := by
        have := congrArg List.length h
        simpa using List.length_eq_zero.mp (by simpa using this)
      rw [this]
      rfl
  · intro b
    rfl

/-- Witness for C10: the two sides agree on a concrete nonempty cache and on
a fresh one. -/
theorem cache_C10_empty_iff_witness :
    (IsEmptyCache cWit = true ↔ Entries cWit = [])
    ∧ IsEmptyCache (New [cert1]) = true :=
  ⟨cache_C10_empty_iff.1 cWit, cache_C10_empty_iff.2 [cert1]⟩
